import Mathlib

/-!
Shallow embedding of `packages/hooks/src/use_resource.rs` (dioxus).

The source is a single-threaded cooperative hook: `use_resource` creates a
value signal (initially `None`), a state signal (initially `Pending`), a
callback that spawns a wrapper task polling the user future, and a background
loop that on every dependency wake cancels the current task and spawns a
fresh one.  The public `Resource` handle offers `restart`, `cancel`, `pause`,
`resume`, `finished`, `state`, `value`.

The embedding models:
  * the signal slots, the current TaskHandle slot and the scheduler request
    log as a record `ResourceCtl`;
  * each control method of `impl Resource` as a function on that record,
    with every scheduler request (`cancel`/`pause`/`resume`/`spawn` on a
    handle) appended to the log in program order;
  * the wrapper task of lines 60-72 as a step function `wrapperStep` on a
    task record, emitting the signal writes each poll performs, in program
    order, so that order and multiplicity of writes are provable;
  * the background restart loop of lines 77-91 as the iterated wake handler
    `processWake` / `restartLoopN`.
TaskHandles are natural numbers drawn from a fresh-id counter, matching the
scheduler interface the spec describes (spawn returns an opaque handle).
-/

namespace UseResource

/-- The state enum of the source file (lines 112-124): Pending, Stopped,
Paused, Ready. -/
inductive UseResourceState where
  | Pending
  | Stopped
  | Paused
  | Ready
deriving DecidableEq

/-- A request issued to the external scheduler on a TaskHandle (handles are
modelled as naturals handed out by a fresh counter). -/
inductive Req where
  | cancel (id : Nat)
  | pause (id : Nat)
  | resume (id : Nat)
  | spawn (id : Nat)
deriving DecidableEq

/-- The two signal slots a read may subscribe to. -/
inductive Slot where
  | value
  | state
deriving DecidableEq

/-- The Resource aggregate of the source (lines 102-107): the value signal,
the state signal and the current task handle, together with bookkeeping for
the embedding: the fresh-id counter of the scheduler, the log of scheduler
requests issued so far, and the log of reactive subscriptions made by
reads. -/
structure ResourceCtl (T : Type) where
  value : Option T
  state : UseResourceState
  task : Nat
  nextId : Nat
  reqs : List Req
  subs : List Slot
deriving DecidableEq

variable {T : Type}

/-- The callback built by `use_callback` (lines 54-73): each call builds the
user future inside the reactive scope and spawns a fresh wrapper task,
returning the new TaskHandle.  It touches neither the value slot, the state
slot nor the task slot. -/
def callbackCall (r : ResourceCtl T) : Nat × ResourceCtl T :=
  (r.nextId, { r with nextId := r.nextId + 1, reqs := r.reqs ++ [Req.spawn r.nextId] })

/-- The Resource as `use_resource` returns it (lines 47-98): value signal
`None`, state signal `Pending`, and the task slot holding the handle of the
first spawned run. -/
def initialResource (T : Type) : ResourceCtl T :=
  let r0 : ResourceCtl T :=
    { value := none, state := UseResourceState.Pending, task := 0, nextId := 0,
      reqs := [], subs := [] }
  let p := callbackCall r0
  { p.2 with task := p.1 }

/-- `Resource::restart` (lines 131-135): cancel the current task, call the
stored callback to spawn a new run, store the new handle.  State and value
slots are not touched. -/
def Resource.restart (r : ResourceCtl T) : ResourceCtl T :=
  let r1 := { r with reqs := r.reqs ++ [Req.cancel r.task] }
  let p := callbackCall r1
  { p.2 with task := p.1 }

/-- `Resource::cancel` (lines 138-141): set state to Stopped, then issue
cancel on the current task handle. -/
def Resource.cancel (r : ResourceCtl T) : ResourceCtl T :=
  let r1 := { r with state := UseResourceState.Stopped }
  { r1 with reqs := r1.reqs ++ [Req.cancel r1.task] }

/-- `Resource::pause` (lines 144-147): set state to Paused, then issue pause
on the current task handle. -/
def Resource.pause (r : ResourceCtl T) : ResourceCtl T :=
  let r1 := { r with state := UseResourceState.Paused }
  { r1 with reqs := r1.reqs ++ [Req.pause r1.task] }

/-- An untracked read of the state signal (`peek`): returns the state and
leaves the resource, in particular its subscription log, unchanged. -/
def peekState (r : ResourceCtl T) : UseResourceState × ResourceCtl T :=
  (r.state, r)

/-- A tracked read of the state signal, as `state()` hands out: it records a
subscription of the reading reactive context. -/
def readStateTracked (r : ResourceCtl T) : UseResourceState × ResourceCtl T :=
  (r.state, { r with subs := r.subs ++ [Slot.state] })

/-- `Resource::finished` (lines 168-173): peek the state signal and match it
against Ready or Stopped. -/
def Resource.finished (r : ResourceCtl T) : Bool × ResourceCtl T :=
  let p := peekState r
  (match p.1 with
    | UseResourceState.Ready => true
    | UseResourceState.Stopped => true
    | _ => false,
   p.2)

/-- `Resource::resume` (lines 150-157): if `finished()` then return without
any effect, otherwise set state to Pending and issue resume on the current
task handle. -/
def Resource.resume (r : ResourceCtl T) : ResourceCtl T :=
  let p := Resource.finished r
  if p.1 then p.2
  else
    let r1 := { p.2 with state := UseResourceState.Pending }
    { r1 with reqs := r1.reqs ++ [Req.resume r1.task] }

/-- One iteration of the background restart loop body (lines 82-88): after a
dependency wake, cancel the current task, then spawn a new run via the
callback and store its handle. -/
def processWake (r : ResourceCtl T) : ResourceCtl T :=
  let r1 := { r with reqs := r.reqs ++ [Req.cancel r.task] }
  let p := callbackCall r1
  { p.2 with task := p.1 }

/-- The restart loop after `n` dependency wakes, processed strictly
sequentially: each wake runs `processWake` to completion before the next is
handled (lines 80-89). -/
def restartLoopN : Nat → ResourceCtl T → ResourceCtl T
  | 0, r => r
  | n + 1, r => processWake (restartLoopN n r)

/-- The wrapper task spawned for one run (lines 60-72): it owns the pinned
user future and is polled by the scheduler.  `pollsLeft` counts how many
polls the user future still answers with pending before it yields `result`;
`cancelled` and `paused` are the scheduler flags set by cancel and pause
requests, and a task with either flag set is not polled; `done` records that
the wrapper already finished. -/
structure WrapperTask (T : Type) where
  pollsLeft : Nat
  result : T
  cancelled : Bool
  paused : Bool
  done : Bool
deriving DecidableEq

/-- A write to one of the two shared signal slots. -/
inductive SigWrite (T : Type) where
  | stateW (s : UseResourceState)
  | valueW (v : Option T)
deriving DecidableEq

/-- One scheduler step offered to the wrapper task.  A cancelled, paused or
finished task is not polled and emits nothing.  Otherwise the poll either
returns pending (the inner future needs more polls), or on the completing
poll emits, in the program order of lines 70-71, the state write to Ready
followed by the value write, and the wrapper task ends. -/
def wrapperStep (t : WrapperTask T) : WrapperTask T × List (SigWrite T) :=
  if t.cancelled || t.paused || t.done then (t, [])
  else
    match t.pollsLeft with
    | n + 1 => ({ t with pollsLeft := n }, [])
    | 0 =>
      ({ t with done := true },
       [SigWrite.stateW UseResourceState.Ready, SigWrite.valueW (some t.result)])

/-- A freshly spawned run whose user future answers pending `polls` times and
then yields `v`. -/
def mkRun (polls : Nat) (v : T) : WrapperTask T :=
  { pollsLeft := polls, result := v, cancelled := false, paused := false, done := false }

/-- Execute `steps` scheduler steps starting at step index `i`, collecting
the signal writes the wrapper performs.  `cancelAt = some j` models a cancel
request that reaches the scheduler just before step index `j` runs. -/
def execAux (cancelAt : Option Nat) : Nat → Nat → WrapperTask T → List (SigWrite T)
  | 0, _, _ => []
  | steps + 1, i, t =>
    let t1 := if cancelAt = some i then { t with cancelled := true } else t
    let p := wrapperStep t1
    p.2 ++ execAux cancelAt steps (i + 1) p.1

/-- The signal writes a run with `polls` pending polls and result `v`
performs over the first `steps` scheduler steps, under an optional cancel. -/
def execRun (polls : Nat) (v : T) (cancelAt : Option Nat) (steps : Nat) :
    List (SigWrite T) :=
  execAux cancelAt steps 0 (mkRun polls v)

/-- Apply one signal write to the resource slots. -/
def applyWrite (r : ResourceCtl T) (w : SigWrite T) : ResourceCtl T :=
  match w with
  | SigWrite.stateW s => { r with state := s }
  | SigWrite.valueW v => { r with value := v }

/-- Apply a list of signal writes in order. -/
def applyWrites (r : ResourceCtl T) (ws : List (SigWrite T)) : ResourceCtl T :=
  ws.foldl applyWrite r

/-- The signal slots of a fresh resource after `steps` scheduler steps of its
first run (no cancellation). -/
def signalsAfter (T : Type) (polls : Nat) (v : T) (steps : Nat) : ResourceCtl T :=
  applyWrites (initialResource T) (execRun polls v none steps)

/-! ### Helper lemmas about the wrapper execution -/

lemma wrapperStep_frozen (t : WrapperTask T)
    (h : t.cancelled = true ∨ t.paused = true ∨ t.done = true) :
    wrapperStep t = (t, []) := by
  rcases h with h | h | h <;> simp [wrapperStep, h]

lemma execAux_frozen (c : Option Nat) (k : Nat) :
    ∀ (i : Nat) (t : WrapperTask T),
      (t.cancelled = true ∨ t.paused = true ∨ t.done = true) →
      execAux c k i t = [] := by
  induction k with
  | zero => intro i t _; rfl
  | succ k ih =>
    intro i t ht
    have key : ∀ t1 : WrapperTask T,
        (t1.cancelled = true ∨ t1.paused = true ∨ t1.done = true) →
        (wrapperStep t1).2 ++ execAux c k (i + 1) (wrapperStep t1).1 = [] := by
      intro t1 ht1
      rw [wrapperStep_frozen t1 ht1]
      simpa using ih (i + 1) t1 ht1
    show (let t1 := if c = some i then { t with cancelled := true } else t
          let p := wrapperStep t1
          p.2 ++ execAux c k (i + 1) p.1) = []
    by_cases hci : c = some i
    · simpa [hci] using key { t with cancelled := true } (Or.inl rfl)
    · simpa [hci] using key t ht

lemma execAux_none_run (k : Nat) :
    ∀ (p i : Nat) (v : T),
      execAux none k i (mkRun p v) =
        if k ≤ p then ([] : List (SigWrite T))
        else [SigWrite.stateW UseResourceState.Ready, SigWrite.valueW (some v)] := by
  induction k with
  | zero => intro p i v; simp [execAux]
  | succ k ih =>
    intro p i v
    show (let t1 := if (none : Option Nat) = some i then
                      { mkRun p v with cancelled := true } else mkRun p v
          let q := wrapperStep t1
          q.2 ++ execAux none k (i + 1) q.1) =
      if k + 1 ≤ p then ([] : List (SigWrite T))
      else [SigWrite.stateW UseResourceState.Ready, SigWrite.valueW (some v)]
    cases p with
    | zero =>
      have h1 : wrapperStep (mkRun 0 v) =
          ({ mkRun 0 v with done := true },
           [SigWrite.stateW UseResourceState.Ready, SigWrite.valueW (some v)]) := by
        simp [wrapperStep, mkRun]
      have h2 : execAux none k (i + 1) { mkRun 0 v with done := true } = [] :=
        execAux_frozen none k (i + 1) _ (Or.inr (Or.inr rfl))
      simp [h1, h2]
    | succ p =>
      have h1 : wrapperStep (mkRun (p + 1) v) = (mkRun p v, ([] : List (SigWrite T))) := by
        simp [wrapperStep, mkRun]
      simp [h1, ih p (i + 1) v, Nat.succ_le_succ_iff]

lemma execAux_cancel_early (k : Nat) :
    ∀ (p i j : Nat) (v : T), i ≤ j → j ≤ i + p →
      execAux (some j) k i (mkRun p v) = [] := by
  induction k with
  | zero => intro p i j v _ _; rfl
  | succ k ih =>
    intro p i j v hij hjp
    show (let t1 := if (some j : Option Nat) = some i then
                      { mkRun p v with cancelled := true } else mkRun p v
          let q := wrapperStep t1
          q.2 ++ execAux (some j) k (i + 1) q.1) = []
    by_cases hji : j = i
    · subst hji
      have h1 : wrapperStep { mkRun p v with cancelled := true } =
          ({ mkRun p v with cancelled := true }, ([] : List (SigWrite T))) :=
        wrapperStep_frozen _ (Or.inl rfl)
      have h2 : execAux (some j) k (j + 1) { mkRun p v with cancelled := true } = [] :=
        execAux_frozen _ k (j + 1) _ (Or.inl rfl)
      simp [h1, h2]
    · have hne : (some j : Option Nat) ≠ some i := by
        intro hcontra; exact hji (Option.some.injEq j i ▸ hcontra)
      cases p with
      | zero =>
        exfalso
        have : j = i := Nat.le_antisymm (by simpa using hjp) hij
        exact hji this
      | succ p =>
        have h1 : wrapperStep (mkRun (p + 1) v) = (mkRun p v, ([] : List (SigWrite T))) := by
          simp [wrapperStep, mkRun]
        have hij1 : i + 1 ≤ j := Nat.lt_of_le_of_ne hij (fun h => hji h.symm)
        have hjp1 : j ≤ (i + 1) + p := by omega
        simp [hne, h1, ih p (i + 1) j v hij1 hjp1]

/-! ### Helper lemmas about the restart loop -/

lemma processWake_value (r : ResourceCtl T) : (processWake r).value = r.value := by
  simp [processWake, callbackCall]

lemma processWake_state (r : ResourceCtl T) : (processWake r).state = r.state := by
  simp [processWake, callbackCall]

lemma restartLoopN_value (n : Nat) (r : ResourceCtl T) :
    (restartLoopN n r).value = r.value := by
  induction n with
  | zero => rfl
  | succ n ih => rw [restartLoopN, processWake_value, ih]

lemma restartLoopN_state (n : Nat) (r : ResourceCtl T) :
    (restartLoopN n r).state = r.state := by
  induction n with
  | zero => rfl
  | succ n ih => rw [restartLoopN, processWake_state, ih]

lemma restartLoop_invariant (n : Nat) :
    (restartLoopN n (initialResource Nat)).task = n
    ∧ (restartLoopN n (initialResource Nat)).nextId = n + 1
    ∧ ∀ id : Nat,
        Req.cancel id ∈ (restartLoopN n (initialResource Nat)).reqs ↔ id < n := by
  induction n with
  | zero =>
    refine ⟨rfl, rfl, ?_⟩
    intro id
    simp [restartLoopN, initialResource, callbackCall]
  | succ n ih =>
    obtain ⟨htask, hnext, hreqs⟩ := ih
    refine ⟨?_, ?_, ?_⟩
    · show (processWake (restartLoopN n (initialResource Nat))).task = n + 1
      simp [processWake, callbackCall, hnext]
    · show (processWake (restartLoopN n (initialResource Nat))).nextId = n + 1 + 1
      simp [processWake, callbackCall, hnext]
    · intro id
      show Req.cancel id ∈ (processWake (restartLoopN n (initialResource Nat))).reqs
        ↔ id < n + 1
      simp only [processWake, callbackCall, List.mem_append, List.mem_singleton,
        List.mem_cons, List.not_mem_nil, or_false]
      rw [htask, hreqs id]
      simp only [Req.cancel.injEq]
      constructor
      · rintro ((h | h) | h)
        · omega
        · omega
        · exact absurd h (by simp)
      · intro h
        rcases Nat.lt_succ_iff_lt_or_eq.mp h with h | h
        · exact Or.inl (Or.inl h)
        · exact Or.inl (Or.inr h)

/-! ### Concrete resources used by witnesses -/

/-- A resource that is Ready with value 1, one spawned task. -/
def c3Resource : ResourceCtl Nat :=
  { value := some 1, state := UseResourceState.Ready, task := 0, nextId := 1,
    reqs := [Req.spawn 0], subs := [] }

/-- A resource in state Paused. -/
def pausedResource : ResourceCtl Nat :=
  { value := none, state := UseResourceState.Paused, task := 0, nextId := 1,
    reqs := [Req.spawn 0], subs := [] }

/-- A resource in state Ready with value 42. -/
def readyResource : ResourceCtl Nat :=
  { value := some 42, state := UseResourceState.Ready, task := 0, nextId := 1,
    reqs := [Req.spawn 0], subs := [] }

/-! ### Claim theorems -/

/-- Claim C1: for a resource whose factory produces a computation completing
with value v, the state signal starts at Pending and the value signal at
None; after i scheduler steps of the run the observed signals are still
Pending and None for every i up to the last pending poll, and Ready and
some v from the completing poll onward — the observed state sequence is
Pending then Ready and the value signal ends holding some v. -/
theorem c1_initial_run_scenario (p i : Nat) (v : T) :
    (initialResource T).state = UseResourceState.Pending
    ∧ (initialResource T).value = none
    ∧ (signalsAfter T p v i).state =
        (if i ≤ p then UseResourceState.Pending else UseResourceState.Ready)
    ∧ (signalsAfter T p v i).value = (if i ≤ p then none else some v) := by
  refine ⟨rfl, rfl, ?_, ?_⟩ <;>
  · rw [signalsAfter, execRun, execAux_none_run i p 0 v]
    by_cases h : i ≤ p <;>
      simp [h, applyWrites, applyWrite, initialResource, callbackCall]

/-- Claim C2: a run that completes naturally performs exactly one value
write and exactly one Ready state write, both on the completing poll step
(no writes occur during the first p pending steps), and a run cancelled at
any step at or before the completing poll performs no writes at all. -/
theorem c2_completion_write_once (p steps j : Nat) (v : T)
    (h1 : p < steps) (h2 : j ≤ p) :
    execRun p v none steps =
      [SigWrite.stateW UseResourceState.Ready, SigWrite.valueW (some v)]
    ∧ execRun p v none p = []
    ∧ execRun p v (some j) steps = [] := by
  refine ⟨?_, ?_, ?_⟩
  · rw [execRun, execAux_none_run steps p 0 v, if_neg (Nat.not_le.mpr h1)]
  · rw [execRun, execAux_none_run p p 0 v, if_pos (le_refl p)]
  · exact execAux_cancel_early steps p 0 j v (Nat.zero_le j) (by omega)

/-- Witness for C2 at p = 1, v = 42, steps = 2, cancel index 0. -/
theorem c2_completion_write_once_witness :
    ((1 : Nat) < 2 ∧ (0 : Nat) ≤ 1)
    ∧ (execRun 1 (42 : Nat) none 2 =
        [SigWrite.stateW UseResourceState.Ready, SigWrite.valueW (some 42)]
      ∧ execRun 1 (42 : Nat) none 1 = []
      ∧ execRun 1 (42 : Nat) (some 0) 2 = []) :=
  ⟨⟨by decide, by decide⟩,
   c2_completion_write_once 1 2 0 42 (by decide) (by decide)⟩

/-- Claim C3: restart cancels the current TaskHandle, spawns a new run via
the stored callback and stores the new handle, leaving the state and value
slots unchanged; a Ready resource with value v1 still reads Ready and
some v1 immediately after restart, and the writes of the completing poll of
the new run overwrite both with Ready and some v2. -/
theorem c3_restart_preserves_value_state (r : ResourceCtl T) (v1 v2 : T)
    (h1 : r.state = UseResourceState.Ready) (h2 : r.value = some v1) :
    (Resource.restart r).state = UseResourceState.Ready
    ∧ (Resource.restart r).value = some v1
    ∧ (Resource.restart r).task = r.nextId
    ∧ (Resource.restart r).reqs = r.reqs ++ [Req.cancel r.task, Req.spawn r.nextId]
    ∧ (applyWrites (Resource.restart r)
        [SigWrite.stateW UseResourceState.Ready, SigWrite.valueW (some v2)]).state =
        UseResourceState.Ready
    ∧ (applyWrites (Resource.restart r)
        [SigWrite.stateW UseResourceState.Ready, SigWrite.valueW (some v2)]).value =
        some v2 := by
  refine ⟨?_, ?_, ?_, ?_, ?_, ?_⟩ <;>
    simp [Resource.restart, callbackCall, applyWrites, applyWrite, h1, h2,
      List.append_assoc]

/-- Witness for C3 at the concrete Ready resource with value 1 and v2 = 2. -/
theorem c3_restart_preserves_value_state_witness :
    (c3Resource.state = UseResourceState.Ready ∧ c3Resource.value = some 1)
    ∧ ((Resource.restart c3Resource).state = UseResourceState.Ready
      ∧ (Resource.restart c3Resource).value = some 1
      ∧ (Resource.restart c3Resource).task = c3Resource.nextId
      ∧ (Resource.restart c3Resource).reqs =
          c3Resource.reqs ++ [Req.cancel c3Resource.task, Req.spawn c3Resource.nextId]
      ∧ (applyWrites (Resource.restart c3Resource)
          [SigWrite.stateW UseResourceState.Ready, SigWrite.valueW (some 2)]).state =
          UseResourceState.Ready
      ∧ (applyWrites (Resource.restart c3Resource)
          [SigWrite.stateW UseResourceState.Ready, SigWrite.valueW (some 2)]).value =
          some 2) :=
  ⟨⟨rfl, rfl⟩, c3_restart_preserves_value_state c3Resource 1 2 rfl rfl⟩

/-- Claim C4: after n dependency wakes the restart loop holds exactly the
task handle n (handles are numbered in spawn order from the initial run 0),
a handle has received a cancel request exactly when it is one of the n
previously held handles, the currently held handle has received no cancel
request, and wake n + 1 is processed by running the wake handler on the
state left by the first n wakes — strictly sequential processing. -/
theorem c4_single_active_run (n id : Nat) :
    (restartLoopN n (initialResource Nat)).task = n
    ∧ (restartLoopN n (initialResource Nat)).nextId = n + 1
    ∧ (Req.cancel id ∈ (restartLoopN n (initialResource Nat)).reqs ↔ id < n)
    ∧ Req.cancel ((restartLoopN n (initialResource Nat)).task) ∉
        (restartLoopN n (initialResource Nat)).reqs
    ∧ restartLoopN (n + 1) (initialResource Nat)
        = processWake (restartLoopN n (initialResource Nat)) := by
  obtain ⟨h1, h2, h3⟩ := restartLoop_invariant n
  refine ⟨h1, h2, h3 id, ?_, rfl⟩
  rw [h1]
  intro h
  exact absurd ((h3 n).mp h) (lt_irrefl n)

/-- Counterexample to claim C5 as stated: on the completing poll of a run
with result 42 the emitted writes are the Ready state write followed by the
value write (lines 70-71 of the source set state first), not the value
write followed by the Ready state write as the claim requires. -/
theorem c5_counterexample :
    execRun 0 (42 : Nat) none 1 =
      [SigWrite.stateW UseResourceState.Ready, SigWrite.valueW (some 42)]
    ∧ execRun 0 (42 : Nat) none 1 ≠
      [SigWrite.valueW (some 42), SigWrite.stateW UseResourceState.Ready] := by
  decide

/-- Claim C5 as amended: on the completing poll the wrapper task transitions
state to Ready and then writes the value into the shared value slot, in that
order, with no writes on earlier polls, and a finished wrapper task is never
polled again and emits nothing further. -/
theorem c5_completion_order_amended (p steps : Nat) (v : T) (t : WrapperTask T)
    (h1 : p < steps) (h2 : t.done = true) :
    execRun p v none steps =
      [SigWrite.stateW UseResourceState.Ready, SigWrite.valueW (some v)]
    ∧ execRun p v none p = []
    ∧ wrapperStep t = (t, []) := by
  refine ⟨?_, ?_, wrapperStep_frozen t (Or.inr (Or.inr h2))⟩
  · rw [execRun, execAux_none_run steps p 0 v, if_neg (Nat.not_le.mpr h1)]
  · rw [execRun, execAux_none_run p p 0 v, if_pos (le_refl p)]

/-- Witness for the amended C5 at p = 0, v = 7, steps = 1 and a finished
wrapper task. -/
theorem c5_completion_order_amended_witness :
    ((0 : Nat) < 1 ∧ (WrapperTask.mk 0 (7 : Nat) false false true).done = true)
    ∧ (execRun 0 (7 : Nat) none 1 =
        [SigWrite.stateW UseResourceState.Ready, SigWrite.valueW (some 7)]
      ∧ execRun 0 (7 : Nat) none 0 = []
      ∧ wrapperStep (WrapperTask.mk 0 (7 : Nat) false false true) =
          (WrapperTask.mk 0 (7 : Nat) false false true, [])) :=
  ⟨⟨by decide, rfl⟩,
   c5_completion_order_amended 0 1 7 (WrapperTask.mk 0 (7 : Nat) false false true)
     (by decide) rfl⟩

/-- Claim C6: pause in any state sets the state signal to Paused and issues
a pause request on the current handle; resume from Paused sets the state
signal to Pending and issues a resume request; resume on a Ready or Stopped
resource changes nothing and issues no request. -/
theorem c6_pause_resume (r rp rf : ResourceCtl T)
    (hp : rp.state = UseResourceState.Paused)
    (hf : rf.state = UseResourceState.Ready ∨ rf.state = UseResourceState.Stopped) :
    (Resource.pause r).state = UseResourceState.Paused
    ∧ (Resource.pause r).reqs = r.reqs ++ [Req.pause r.task]
    ∧ (Resource.resume rp).state = UseResourceState.Pending
    ∧ (Resource.resume rp).reqs = rp.reqs ++ [Req.resume rp.task]
    ∧ Resource.resume rf = rf := by
  refine ⟨rfl, rfl, ?_, ?_, ?_⟩
  · simp [Resource.resume, Resource.finished, peekState, hp]
  · simp [Resource.resume, Resource.finished, peekState, hp]
  · rcases hf with hf | hf <;>
      simp [Resource.resume, Resource.finished, peekState, hf]

/-- Witness for C6 at a fresh resource, a Paused resource and a Ready
resource. -/
theorem c6_pause_resume_witness :
    (pausedResource.state = UseResourceState.Paused
      ∧ (readyResource.state = UseResourceState.Ready
        ∨ readyResource.state = UseResourceState.Stopped))
    ∧ ((Resource.pause (initialResource Nat)).state = UseResourceState.Paused
      ∧ (Resource.pause (initialResource Nat)).reqs =
          (initialResource Nat).reqs ++ [Req.pause (initialResource Nat).task]
      ∧ (Resource.resume pausedResource).state = UseResourceState.Pending
      ∧ (Resource.resume pausedResource).reqs =
          pausedResource.reqs ++ [Req.resume pausedResource.task]
      ∧ Resource.resume readyResource = readyResource) :=
  ⟨⟨rfl, Or.inl rfl⟩,
   c6_pause_resume (initialResource Nat) pausedResource readyResource rfl
     (Or.inl rfl)⟩

/-- Claim C7: cancel in any state sets the state signal to Stopped and
issues a cancel request on the current handle, and a subsequent resume is a
no-op: the resource is unchanged and no resume request is issued. -/
theorem c7_cancel_then_resume_noop (r : ResourceCtl T) :
    (Resource.cancel r).state = UseResourceState.Stopped
    ∧ (Resource.cancel r).reqs = r.reqs ++ [Req.cancel r.task]
    ∧ Resource.resume (Resource.cancel r) = Resource.cancel r := by
  exact ⟨rfl, rfl, rfl⟩

/-- Claim C8: finished is true exactly when the state is Ready or Stopped,
and it reads the state through an untracked peek: the resource, in
particular its subscription log, is unchanged, whereas a tracked read of
the state signal records a subscription. -/
theorem c8_finished_peek (r : ResourceCtl T) :
    ((Resource.finished r).1 = true ↔
      (r.state = UseResourceState.Ready ∨ r.state = UseResourceState.Stopped))
    ∧ (Resource.finished r).2 = r
    ∧ (Resource.finished r).2.subs = r.subs
    ∧ (readStateTracked r).2.subs = r.subs ++ [Slot.state] := by
  refine ⟨?_, rfl, rfl, rfl⟩
  cases h : r.state <;> simp [Resource.finished, peekState, h]

/-- Claim C9: no control operation writes the value slot — cancel, pause,
resume, restart, one wake of the background loop and any number of wakes
all leave the value signal unchanged; a cancelled run writes nothing, and
only the completing poll of a naturally completing run writes the value
slot. -/
theorem c9_value_slot_frame (r : ResourceCtl T) (n p steps : Nat) (v : T) :
    (Resource.cancel r).value = r.value
    ∧ (Resource.pause r).value = r.value
    ∧ (Resource.resume r).value = r.value
    ∧ (Resource.restart r).value = r.value
    ∧ (processWake r).value = r.value
    ∧ (restartLoopN n r).value = r.value
    ∧ execRun p v (some 0) steps = []
    ∧ execRun p v none (p + steps + 1) =
        [SigWrite.stateW UseResourceState.Ready, SigWrite.valueW (some v)] := by
  refine ⟨rfl, rfl, ?_, rfl, processWake_value r, restartLoopN_value n r, ?_, ?_⟩
  · cases hs : r.state <;>
      simp [Resource.resume, Resource.finished, peekState, hs]
  · exact execAux_cancel_early steps p 0 0 v (le_refl 0) (by omega)
  · rw [execRun, execAux_none_run (p + steps + 1) p 0 v, if_neg (by omega)]

/-- Claim C10: a dependency wake of the background loop leaves the state
slot (and the value slot) unchanged — it only cancels the old handle,
spawns a new run and stores the new handle — and any number of wakes leaves
the state slot unchanged, so a Ready, Paused or Stopped resource keeps its
state until a run completes. -/
theorem c10_wake_state_frame (r : ResourceCtl T) (n : Nat) :
    (processWake r).state = r.state
    ∧ (processWake r).value = r.value
    ∧ (processWake r).task = r.nextId
    ∧ (processWake r).reqs = r.reqs ++ [Req.cancel r.task, Req.spawn r.nextId]
    ∧ (restartLoopN n r).state = r.state := by
  refine ⟨processWake_state r, processWake_value r, rfl, ?_, restartLoopN_state n r⟩
  simp [processWake, callbackCall, List.append_assoc]

end UseResource
